import Mathlib

/-!
Shallow embedding of the capture/decode/output pipeline of rtlamr's `recv.go`
(`Receiver.Run`, lines 107-197, and the surrounding `main`).

Modelling conventions:
* The SDR transport, decoder and parser are opaque collaborators; a `Block`
  records one loop iteration's observable interaction with them: whether
  `rcvr.Read` errored, the per-candidate outcome of
  `rcvr.p.Parse(parse.NewDataFromBytes(pkt))` for each packet returned by
  `rcvr.d.Decode(block)` (in decoder order, `none` = parse error), the
  decoder's raw byte buffer `rcvr.d.IQ` after the block, and whether
  `sampleFile.Write` would fail for this block.
* `meterID` / `meterType` are Go maps `map[uint]bool` populated from flags
  with `true` values; they are modelled as the list of included identifiers,
  so `len(m) > 0` becomes `l.length > 0` and `m[x]` becomes `x ∈ l`.
* `sampleFile` is modelled by the list of bytes written so far;
  `sampleFile.Seek(0, os.SEEK_CUR)` is its length (0 forever when the capture
  path is `os.DevNull`, since the guarded write never runs and the descriptor
  position never advances).
* `log.Fatal` is `Print` followed by `os.Exit(1)` (Go standard library);
  `os.Exit` terminates the process immediately WITHOUT running deferred
  functions, so `main`'s `defer logFile.Close()` / `defer sampleFile.Close()`
  do not run on any `log.Fatal` path. This is recorded by `defersRun`.
* Wall-clock time (`msg.Time`), string rendering (`msg.String`,
  `msg.StringNoOffset`) and the interrupt/time-limit channels are not
  modelled; no claim below depends on them, and the `select` `default`
  branch is the one every modelled iteration takes.
-/

/-- A parsed meter message: the two fields `Receiver.Run` reads from the
parser's output (`scm.MeterID()`, `scm.MeterType()`). -/
structure Message where
  meterID : Nat
  meterType : Nat
deriving DecidableEq, Repr

/-- `parse.LogMessage` as populated at recv.go:152-156: `Offset` from
`sampleFile.Seek(0, os.SEEK_CUR)`, `Length` from
`rcvr.d.Cfg.BufferLength << 1`, and the message. (`Time` not modelled.) -/
structure LogMessage where
  offset : Nat
  length : Nat
  message : Message
deriving DecidableEq, Repr

/-- The fields of `decode.PacketConfig` that `Receiver.Run` reads:
`BlockSize2` (read-buffer size, recv.go:118) and `BufferLength`
(recv.go:155). Their values are computed in the decode package, which is
not part of the file under verification. -/
structure PacketConfig where
  blockSize2 : Nat
  bufferLength : Nat
deriving DecidableEq, Repr

/-- Modelled from the spec: the decode package (`decode.NewDecoder`, which
fixes `BlockSize2`, `BufferLength` and the `IQ` buffer) is missing from the
sources. Per the spec, the Sample Block is "a fixed-length byte buffer,
length determined by the active protocol configuration (`BlockSize2`)" and
the decoder returns "the block's raw IQ bytes for potential persistence",
so the raw-IQ byte count `BufferLength << 1` used for the Log Entry's
`Length` is the block's byte length `BlockSize2`. -/
def specBlockBytes (p : PacketConfig) : Prop :=
  p.bufferLength * 2 = p.blockSize2

/-- One iteration's interaction with the opaque transport/decoder/parser. -/
structure Block where
  readErr : Bool
  parsed : List (Option Message)
  iq : List Nat
  writeErr : Bool
deriving DecidableEq, Repr

/-- The ambient configuration `Receiver.Run` reads: the two inclusion sets,
`*single`, whether `*sampleFilename == os.DevNull`, whether `encoder == nil`
(plain-text output), whether writes/encodes on the log sink fail, and the
decoder's packet configuration. -/
structure Config where
  meterID : List Nat
  meterType : List Nat
  single : Bool
  sampleDevNull : Bool
  encoderNil : Bool
  logWriteFails : Bool
  cfgD : PacketConfig
deriving DecidableEq, Repr

/-- The filter of recv.go:144-149: a message survives both `continue`
guards `len(meterID) > 0 && !meterID[id]` and
`len(meterType) > 0 && !meterType[ty]`. -/
def filterPass (cfg : Config) (scm : Message) : Bool :=
  if cfg.meterID.length > 0 ∧ scm.meterID ∉ cfg.meterID then false
  else if cfg.meterType.length > 0 ∧ scm.meterType ∉ cfg.meterType then false
  else true

/-- Whether some candidate of a block parses and passes the filter
(the condition under which the code sets `pktFound`). -/
def blockAccepted (cfg : Config) : List (Option Message) → Bool
  | [] => false
  | none :: rest => blockAccepted cfg rest
  | some scm :: rest => filterPass cfg scm || blockAccepted cfg rest

/-- The first candidate (in decoder order) that parses and passes the
filter, if any. -/
def firstAccepted (cfg : Config) : List (Option Message) → Option Message
  | [] => none
  | none :: rest => firstAccepted cfg rest
  | some scm :: rest =>
      if filterPass cfg scm then some scm else firstAccepted cfg rest

/-- How many candidates of a block parse and pass the filter. -/
def countAccepted (cfg : Config) : List (Option Message) → Nat
  | [] => 0
  | none :: rest => countAccepted cfg rest
  | some scm :: rest =>
      (if filterPass cfg scm then 1 else 0) + countAccepted cfg rest

/-- Result of the candidate loop of recv.go:137-182: the log entries that
reached the sink, the final value of `pktFound`, and whether
`log.Fatal("Error encoding message: ...")` fired. -/
structure CandOut where
  entries : List LogMessage
  found : Bool
  fatal : Bool
deriving DecidableEq, Repr

/-- The candidate loop of recv.go:137-182. `pos` is
`sampleFile.Seek(0, os.SEEK_CUR)` (constant across the block: the guarded
`sampleFile.Write` only runs after this loop), `len` is
`rcvr.d.Cfg.BufferLength << 1`. A parse error `continue`s; the two filter
guards `continue`; otherwise a `LogMessage` is built and written. On the
plain-text path (`encoder == nil`) `fmt.Fprintln`'s error is discarded, so
a failing sink silently drops the line and the loop continues; on the
encoder path a failing `encoder.Encode` hits `log.Fatal`. After a
successful candidate `pktFound = true`, and `*single` `break`s the loop. -/
def processCandidates (cfg : Config) (pos len : Nat) :
    List (Option Message) → CandOut
  | [] => ⟨[], false, false⟩
  | none :: rest => processCandidates cfg pos len rest
  | some scm :: rest =>
      if filterPass cfg scm = false then processCandidates cfg pos len rest
      else if cfg.encoderNil then
        if cfg.single then
          ⟨if cfg.logWriteFails then [] else [⟨pos, len, scm⟩], true, false⟩
        else
          ⟨(if cfg.logWriteFails then [] else [⟨pos, len, scm⟩]) ++
              (processCandidates cfg pos len rest).entries, true,
            (processCandidates cfg pos len rest).fatal⟩
      else if cfg.logWriteFails then ⟨[], false, true⟩
      else if cfg.single then ⟨[⟨pos, len, scm⟩], true, false⟩
      else
        ⟨⟨pos, len, scm⟩ :: (processCandidates cfg pos len rest).entries, true,
          (processCandidates cfg pos len rest).fatal⟩

/-- The mutable state the loop threads: bytes written to `sampleFile`, the
number of `sampleFile.Write` calls, entries written to the log sink, and
the number of `rcvr.Read` calls. -/
structure RunState where
  captureFile : List Nat
  captureWrites : Nat
  log : List LogMessage
  reads : Nat
deriving DecidableEq, Repr

/-- State before the first iteration. -/
def initState : RunState := ⟨[], 0, [], 0⟩

/-- Which `log.Fatal` call fired. -/
inductive FatalKind where
  | readError
  | encodeError
  | captureError
deriving DecidableEq, Repr

/-- Outcome of one loop iteration. -/
inductive StepOut where
  | cont (st : RunState)
  | ret (st : RunState)
  | fatal (st : RunState) (k : FatalKind)
deriving DecidableEq, Repr

/-- The state carried by a step outcome. -/
def StepOut.state : StepOut → RunState
  | .cont st => st
  | .ret st => st
  | .fatal st _ => st

/-- Whether the step terminated the process through `log.Fatal`. -/
def StepOut.isFatal : StepOut → Bool
  | .fatal _ _ => true
  | _ => false

/-- What happens after the candidate loop of one iteration, recv.go:178-194,
given the candidate loop's outcome `co`: if the loop hit `log.Fatal` the
process is dead; else, if `pktFound`, write `rcvr.d.IQ` to `sampleFile`
unless the capture path is `os.DevNull` (`log.Fatal` if that write errors),
and `return` from `Run` when `*single`. -/
def stepBlockAux (cfg : Config) (st : RunState) (b : Block) (co : CandOut) :
    StepOut :=
  if co.fatal then .fatal { st with log := st.log ++ co.entries } .encodeError
  else if co.found then
    if cfg.sampleDevNull then
      if cfg.single then .ret { st with log := st.log ++ co.entries }
      else .cont { st with log := st.log ++ co.entries }
    else if b.writeErr then
      .fatal { st with log := st.log ++ co.entries } .captureError
    else if cfg.single then
      .ret { st with log := st.log ++ co.entries,
                     captureFile := st.captureFile ++ b.iq,
                     captureWrites := st.captureWrites + 1 }
    else
      .cont { st with log := st.log ++ co.entries,
                      captureFile := st.captureFile ++ b.iq,
                      captureWrites := st.captureWrites + 1 }
  else .cont { st with log := st.log ++ co.entries }

/-- One iteration of the `default:` branch of the loop, recv.go:130-194:
read a block (`log.Fatal` on error), run the candidate loop with the
current `sampleFile` position and `BufferLength << 1`, then finish the
iteration per `stepBlockAux`. -/
def stepBlock (cfg : Config) (st : RunState) (b : Block) : StepOut :=
  if b.readErr then .fatal { st with reads := st.reads + 1 } .readError
  else
    stepBlockAux cfg { st with reads := st.reads + 1 } b
      (processCandidates cfg st.captureFile.length
        (cfg.cfgD.bufferLength * 2) b.parsed)

/-- How the whole run ended on a finite stream of blocks: `streamEnded` if
the loop is still running when the modelled stream runs out, `done` if
`Receiver.Run` returned (single-shot), `fatal` if `log.Fatal` fired. -/
inductive RunResult where
  | streamEnded (st : RunState)
  | done (st : RunState)
  | fatal (st : RunState) (k : FatalKind)
deriving DecidableEq, Repr

/-- The state carried by a run result. -/
def RunResult.state : RunResult → RunState
  | .streamEnded st => st
  | .done st => st
  | .fatal st _ => st

/-- Process exit status: `Receiver.Run` returning lets `main` return
(status 0); `log.Fatal` is `os.Exit(1)`; `none` while still looping. -/
def exitStatus : RunResult → Option Nat
  | .streamEnded _ => none
  | .done _ => some 0
  | .fatal _ _ => some 1

/-- Whether `main`'s deferred `logFile.Close()` / `sampleFile.Close()` run
on this outcome. Go semantics: `log.Fatal` = `Print` + `os.Exit(1)`, and
`os.Exit` terminates immediately without running deferred calls. -/
def defersRun : RunResult → Bool
  | .fatal _ _ => false
  | _ => true

/-- Whether the run died in `log.Fatal("Error encoding message: ...")`. -/
def isEncodeFatal : RunResult → Bool
  | .fatal _ .encodeError => true
  | _ => false

/-- The block-read loop of recv.go:121-196 over a finite stream. -/
def run (cfg : Config) (st : RunState) : List Block → RunResult
  | [] => .streamEnded st
  | b :: rest =>
      match stepBlock cfg st b with
      | .cont st' => run cfg st' rest
      | .ret st' => .done st'
      | .fatal st' k => .fatal st' k

/-! ### Concrete fixtures used by witnesses and counterexamples -/

/-- A concrete meter message. -/
def msgA : Message := ⟨11, 4⟩

/-- Another concrete meter message. -/
def msgB : Message := ⟨22, 7⟩

/-- A concrete packet configuration; it satisfies `specBlockBytes`. -/
def cfgDW : PacketConfig := ⟨8, 4⟩

/-- Plain-text output, capture enabled, no filtering, non-single-shot. -/
def cfgPlain : Config := ⟨[], [], false, false, true, false, cfgDW⟩

/-- `cfgPlain` with single-shot mode on. -/
def cfgSingle : Config := { cfgPlain with single := true }

/-- `cfgPlain` with a failing log sink. -/
def cfgPlainBadSink : Config := { cfgPlain with logWriteFails := true }

/-- Structured-encoder output with a failing log sink. -/
def cfgEncBadSink : Config :=
  { cfgPlain with encoderNil := false, logWriteFails := true }

/-- A block whose two candidates both fail parsing. -/
def bNoise : Block := ⟨false, [none, none], [5, 5, 5, 5, 5, 5, 5, 5], false⟩

/-- A quiet block: its only candidate fails parsing. -/
def bQuiet : Block := ⟨false, [none], [1, 2, 3, 4, 5, 6, 7, 8], false⟩

/-- A block with one parse failure followed by one accepted candidate. -/
def bOne : Block := ⟨false, [none, some msgA], [9, 9, 9, 9, 9, 9, 9, 9], false⟩

/-- A block with two accepted candidates. -/
def bTwo : Block :=
  ⟨false, [some msgA, some msgB], [3, 3, 3, 3, 3, 3, 3, 3], false⟩

/-- A block whose transport read errors. -/
def bReadErr : Block := ⟨true, [], [], false⟩

/-! ### Helper lemmas about the candidate loop -/

theorem filterPass_true_of (cfg : Config) (scm : Message)
    (h1 : cfg.meterID = [] ∨ scm.meterID ∈ cfg.meterID)
    (h2 : cfg.meterType = [] ∨ scm.meterType ∈ cfg.meterType) :
    filterPass cfg scm = true := by
  unfold filterPass
  split
  · next hg =>
    rcases h1 with he | hm
    · rw [he] at hg; simp at hg
    · exact absurd hm hg.2
  split
  · next hg =>
    rcases h2 with he | hm
    · rw [he] at hg; simp at hg
    · exact absurd hm hg.2
  · rfl

theorem filterPass_elim (cfg : Config) (scm : Message)
    (h : filterPass cfg scm = true) :
    (cfg.meterID = [] ∨ scm.meterID ∈ cfg.meterID) ∧
      (cfg.meterType = [] ∨ scm.meterType ∈ cfg.meterType) := by
  unfold filterPass at h
  split at h
  · exact absurd h (by simp)
  · split at h
    · exact absurd h (by simp)
    · next hg1 hg2 =>
      rw [Classical.not_and_iff_or_not_not] at hg1 hg2
      constructor
      · rcases hg1 with he | hm
        · left
          simpa [List.length_pos] using he
        · right
          simpa using hm
      · rcases hg2 with he | hm
        · left
          simpa [List.length_pos] using he
        · right
          simpa using hm

theorem pc_entries (cfg : Config) (pos len : Nat) (ps : List (Option Message)) :
    ∀ e ∈ (processCandidates cfg pos len ps).entries,
      e.offset = pos ∧ e.length = len := by
  induction ps with
  | nil => simp [processCandidates]
  | cons c rest ih =>
    cases c with
    | none => simpa [processCandidates] using ih
    | some scm =>
      by_cases hf : filterPass cfg scm = false
      · simpa [processCandidates, hf] using ih
      · intro e hme
        rw [processCandidates] at hme
        rw [if_neg hf] at hme
        split at hme
        · split at hme
          · simp only [CandOut.entries] at hme
            split at hme <;> simp_all
          · simp only [CandOut.entries] at hme
            rcases List.mem_append.mp hme with h | h
            · split at h <;> simp_all
            · exact ih e h
        · split at hme
          · simp [CandOut.entries] at hme
          · split at hme
            · simp only [CandOut.entries] at hme
              simp_all
            · simp only [CandOut.entries] at hme
              rcases List.mem_cons.mp hme with h | h
              · simp_all
              · exact ih e h

theorem pc_not_accepted (cfg : Config) (pos len : Nat)
    (ps : List (Option Message)) (h : blockAccepted cfg ps = false) :
    processCandidates cfg pos len ps = ⟨[], false, false⟩ := by
  induction ps with
  | nil => simp [processCandidates]
  | cons c rest ih =>
    cases c with
    | none =>
      rw [blockAccepted] at h
      rw [processCandidates]
      exact ih h
    | some scm =>
      rw [blockAccepted, Bool.or_eq_false_iff] at h
      rw [processCandidates, if_pos h.1]
      exact ih h.2

theorem pc_fatal_false (cfg : Config) (pos len : Nat)
    (ps : List (Option Message))
    (h : cfg.encoderNil = true ∨ cfg.logWriteFails = false) :
    (processCandidates cfg pos len ps).fatal = false := by
  induction ps with
  | nil => simp [processCandidates]
  | cons c rest ih =>
    cases c with
    | none => simpa [processCandidates] using ih
    | some scm =>
      rw [processCandidates]
      split
      · exact ih
      · rcases h with he | hw
        · rw [if_pos he]
          split <;> simp [ih]
        · split
          · split <;> simp [ih]
          · rw [if_neg (by simp [hw])]
            split <;> simp [ih]

theorem pc_found_eq (cfg : Config) (pos len : Nat)
    (ps : List (Option Message))
    (h : (processCandidates cfg pos len ps).fatal = false) :
    (processCandidates cfg pos len ps).found = blockAccepted cfg ps := by
  induction ps with
  | nil => simp [processCandidates, blockAccepted]
  | cons c rest ih =>
    cases c with
    | none =>
      rw [processCandidates] at h ⊢
      rw [blockAccepted]
      exact ih h
    | some scm =>
      rw [processCandidates] at h ⊢
      rw [blockAccepted]
      split at h
      · next hf =>
        rw [if_pos hf]
        rw [Bool.eq_false_iff] at hf
        simp only [Bool.not_eq_true] at hf
        rw [hf, Bool.false_or]
        exact ih h
      · next hf =>
        have hft : filterPass cfg scm = true := by
          revert hf
          cases filterPass cfg scm <;> simp
        rw [if_neg (by simp [hft])]
        rw [hft, Bool.true_or]
        split at h
        · split at h <;> simp_all [CandOut.found]
        · split at h
          · simp [CandOut.fatal] at h
          · split at h <;> simp_all [CandOut.found]

theorem pc_fatal_true (cfg : Config) (pos len : Nat)
    (ps : List (Option Message))
    (henc : cfg.encoderNil = false) (hw : cfg.logWriteFails = true)
    (hacc : blockAccepted cfg ps = true) :
    (processCandidates cfg pos len ps).fatal = true := by
  induction ps with
  | nil => simp [blockAccepted] at hacc
  | cons c rest ih =>
    cases c with
    | none =>
      rw [blockAccepted] at hacc
      rw [processCandidates]
      exact ih hacc
    | some scm =>
      rw [blockAccepted] at hacc
      rw [processCandidates]
      split
      · next hf =>
        rw [hf, Bool.false_or] at hacc
        exact ih hacc
      · rw [if_neg (show ¬(cfg.encoderNil = true) by simp [henc])]

theorem firstAccepted_isSome_eq (cfg : Config) (ps : List (Option Message)) :
    (firstAccepted cfg ps).isSome = blockAccepted cfg ps := by
  induction ps with
  | nil => simp [firstAccepted, blockAccepted]
  | cons c rest ih =>
    cases c with
    | none => simpa [firstAccepted, blockAccepted] using ih
    | some scm =>
      rw [firstAccepted, blockAccepted]
      by_cases hf : filterPass cfg scm = true
      · simp [hf]
      · simp only [Bool.not_eq_true] at hf
        simp [hf, ih]

theorem pc_single (cfg : Config) (pos len : Nat) (ps : List (Option Message))
    (hs : cfg.single = true) (hw : cfg.logWriteFails = false) :
    processCandidates cfg pos len ps =
      ⟨((firstAccepted cfg ps).map
          fun scm => (⟨pos, len, scm⟩ : LogMessage)).toList,
        (firstAccepted cfg ps).isSome, false⟩ := by
  induction ps with
  | nil => simp [processCandidates, firstAccepted]
  | cons c rest ih =>
    cases c with
    | none =>
      rw [processCandidates, firstAccepted]
      exact ih
    | some scm =>
      rw [processCandidates, firstAccepted]
      by_cases hf : filterPass cfg scm = true
      · rw [if_neg (show ¬(filterPass cfg scm = false) by simp [hf]), if_pos hf]
        split
        · simp [hw]
        · simp [hw]
      · simp only [Bool.not_eq_true] at hf
        rw [if_pos hf, if_neg (show ¬(filterPass cfg scm = true) by simp [hf])]
        exact ih

/-! ### Helper lemmas about one iteration -/

theorem stepBlockAux_state (cfg : Config) (st : RunState) (b : Block)
    (co : CandOut) :
    ((stepBlockAux cfg st b co).state).log = st.log ++ co.entries ∧
    ((stepBlockAux cfg st b co).state).reads = st.reads ∧
    ∃ app, ((stepBlockAux cfg st b co).state).captureFile =
        st.captureFile ++ app ∧
      st.captureWrites ≤ ((stepBlockAux cfg st b co).state).captureWrites := by
  unfold stepBlockAux
  split
  · exact ⟨rfl, rfl, [], by simp [StepOut.state], Nat.le_refl _⟩
  split
  · split
    · split
      · exact ⟨rfl, rfl, [], by simp [StepOut.state], Nat.le_refl _⟩
      · exact ⟨rfl, rfl, [], by simp [StepOut.state], Nat.le_refl _⟩
    · split
      · exact ⟨rfl, rfl, [], by simp [StepOut.state], Nat.le_refl _⟩
      · split
        · exact ⟨rfl, rfl, b.iq, by simp [StepOut.state], by simp [StepOut.state]⟩
        · exact ⟨rfl, rfl, b.iq, by simp [StepOut.state], by simp [StepOut.state]⟩
  · exact ⟨rfl, rfl, [], by simp [StepOut.state], Nat.le_refl _⟩

theorem stepBlock_growth (cfg : Config) (st : RunState) (b : Block) :
    ∃ tail app,
      ((stepBlock cfg st b).state).log = st.log ++ tail ∧
      ((stepBlock cfg st b).state).captureFile = st.captureFile ++ app ∧
      st.captureWrites ≤ ((stepBlock cfg st b).state).captureWrites ∧
      ∀ e ∈ tail, e.offset = st.captureFile.length ∧
        e.length = cfg.cfgD.bufferLength * 2 := by
  unfold stepBlock
  split
  · exact ⟨[], [], by simp [StepOut.state], by simp [StepOut.state],
      Nat.le_refl _, by simp⟩
  · obtain ⟨h1, h2, app, h3, h4⟩ := stepBlockAux_state cfg
      { st with reads := st.reads + 1 } b
      (processCandidates cfg st.captureFile.length
        (cfg.cfgD.bufferLength * 2) b.parsed)
    exact ⟨_, app, h1, h3, h4,
      pc_entries cfg st.captureFile.length (cfg.cfgD.bufferLength * 2) b.parsed⟩

theorem stepBlock_readErr (cfg : Config) (st : RunState) (b : Block)
    (hr : b.readErr = true) :
    stepBlock cfg st b = .fatal { st with reads := st.reads + 1 } .readError := by
  unfold stepBlock
  rw [if_pos hr]

theorem stepBlock_quiet (cfg : Config) (st : RunState) (b : Block)
    (hr : b.readErr = false)
    (hacc : blockAccepted cfg b.parsed = false) :
    stepBlock cfg st b = .cont { st with reads := st.reads + 1 } := by
  unfold stepBlock
  rw [if_neg (show ¬(b.readErr = true) by simp [hr])]
  rw [pc_not_accepted cfg st.captureFile.length (cfg.cfgD.bufferLength * 2)
    b.parsed hacc]
  unfold stepBlockAux
  simp

theorem stepBlock_cofatal (cfg : Config) (st : RunState) (b : Block)
    (hr : b.readErr = false)
    (hf : (processCandidates cfg st.captureFile.length
      (cfg.cfgD.bufferLength * 2) b.parsed).fatal = true) :
    stepBlock cfg st b =
      .fatal { st with reads := st.reads + 1,
                       log := st.log ++
                         (processCandidates cfg st.captureFile.length
                           (cfg.cfgD.bufferLength * 2) b.parsed).entries }
        .encodeError := by
  unfold stepBlock stepBlockAux
  rw [if_neg (show ¬(b.readErr = true) by simp [hr]), if_pos hf]

theorem stepBlock_accept_nofatal (cfg : Config) (st : RunState) (b : Block)
    (hcap : cfg.sampleDevNull = false)
    (hr : b.readErr = false)
    (hacc : blockAccepted cfg b.parsed = true)
    (hcof : (processCandidates cfg st.captureFile.length
      (cfg.cfgD.bufferLength * 2) b.parsed).fatal = false)
    (hbw : b.writeErr = false) :
    ((stepBlock cfg st b).state).captureWrites = st.captureWrites + 1 ∧
    ((stepBlock cfg st b).state).captureFile = st.captureFile ++ b.iq := by
  have hfound := pc_found_eq cfg st.captureFile.length
    (cfg.cfgD.bufferLength * 2) b.parsed hcof
  unfold stepBlock stepBlockAux
  rw [if_neg (show ¬(b.readErr = true) by simp [hr]),
    if_neg (show ¬((processCandidates cfg st.captureFile.length
      (cfg.cfgD.bufferLength * 2) b.parsed).fatal = true) by simp [hcof]),
    if_pos (show (processCandidates cfg st.captureFile.length
      (cfg.cfgD.bufferLength * 2) b.parsed).found = true by rw [hfound, hacc]),
    if_neg (show ¬(cfg.sampleDevNull = true) by simp [hcap]),
    if_neg (show ¬(b.writeErr = true) by simp [hbw])]
  split <;> simp [StepOut.state]

theorem stepBlock_accept_writeErr (cfg : Config) (st : RunState) (b : Block)
    (hcap : cfg.sampleDevNull = false)
    (hr : b.readErr = false)
    (hacc : blockAccepted cfg b.parsed = true)
    (hcof : (processCandidates cfg st.captureFile.length
      (cfg.cfgD.bufferLength * 2) b.parsed).fatal = false)
    (hbw : b.writeErr = true) :
    stepBlock cfg st b =
      .fatal { st with reads := st.reads + 1,
                       log := st.log ++
                         (processCandidates cfg st.captureFile.length
                           (cfg.cfgD.bufferLength * 2) b.parsed).entries }
        .captureError := by
  have hfound := pc_found_eq cfg st.captureFile.length
    (cfg.cfgD.bufferLength * 2) b.parsed hcof
  unfold stepBlock stepBlockAux
  rw [if_neg (show ¬(b.readErr = true) by simp [hr]),
    if_neg (show ¬((processCandidates cfg st.captureFile.length
      (cfg.cfgD.bufferLength * 2) b.parsed).fatal = true) by simp [hcof]),
    if_pos (show (processCandidates cfg st.captureFile.length
      (cfg.cfgD.bufferLength * 2) b.parsed).found = true by rw [hfound, hacc]),
    if_neg (show ¬(cfg.sampleDevNull = true) by simp [hcap]),
    if_pos hbw]

theorem stepBlock_accept_single (cfg : Config) (st : RunState) (b : Block)
    (hs : cfg.single = true) (hw : cfg.logWriteFails = false)
    (hbr : b.readErr = false) (hba : blockAccepted cfg b.parsed = true)
    (hbw : b.writeErr = false) :
    stepBlock cfg st b = .ret { st with
      reads := st.reads + 1,
      log := st.log ++ ((firstAccepted cfg b.parsed).map
        fun scm => (⟨st.captureFile.length, cfg.cfgD.bufferLength * 2, scm⟩ :
          LogMessage)).toList,
      captureFile := st.captureFile ++
        (if cfg.sampleDevNull then [] else b.iq),
      captureWrites := st.captureWrites +
        (if cfg.sampleDevNull then 0 else 1) } := by
  unfold stepBlock
  rw [if_neg (show ¬(b.readErr = true) by simp [hbr]),
    pc_single cfg st.captureFile.length (cfg.cfgD.bufferLength * 2) b.parsed hs hw]
  unfold stepBlockAux
  by_cases hdev : cfg.sampleDevNull = true
  · simp [firstAccepted_isSome_eq, hba, hdev, hs]
  · simp only [Bool.not_eq_true] at hdev
    simp [firstAccepted_isSome_eq, hba, hdev, hbw, hs]

/-! ### Helper lemmas about the whole loop -/

theorem run_log_len (cfg : Config) (bs : List Block) (st : RunState)
    (h0 : ∀ e ∈ st.log, e.length = cfg.cfgD.bufferLength * 2) :
    ∀ e ∈ ((run cfg st bs).state).log,
      e.length = cfg.cfgD.bufferLength * 2 := by
  induction bs generalizing st with
  | nil => exact h0
  | cons b rest ih =>
    obtain ⟨tail, app, hlog, hfile, hwr, hprop⟩ := stepBlock_growth cfg st b
    have h0' : ∀ e ∈ ((stepBlock cfg st b).state).log,
        e.length = cfg.cfgD.bufferLength * 2 := by
      rw [hlog]
      intro e hme
      rcases List.mem_append.mp hme with h | h
      · exact h0 e h
      · exact (hprop e h).2
    cases hstep : stepBlock cfg st b with
    | cont st' =>
      rw [hstep] at h0'
      simp only [run, hstep]
      exact ih st' h0'
    | ret st' =>
      rw [hstep] at h0'
      simp only [run, hstep, RunResult.state]
      exact h0'
    | fatal st' k =>
      rw [hstep] at h0'
      simp only [run, hstep, RunResult.state]
      exact h0'

theorem run_offsets (cfg : Config) (bs : List Block) (st : RunState)
    (h1 : (st.log.map LogMessage.offset).Pairwise (· ≤ ·))
    (h2 : ∀ e ∈ st.log, e.offset ≤ st.captureFile.length) :
    (((run cfg st bs).state).log.map LogMessage.offset).Pairwise (· ≤ ·) := by
  induction bs generalizing st with
  | nil => exact h1
  | cons b rest ih =>
    obtain ⟨tail, app, hlog, hfile, hwr, hprop⟩ := stepBlock_growth cfg st b
    have h1' : (((stepBlock cfg st b).state).log.map LogMessage.offset).Pairwise
        (· ≤ ·) := by
      rw [hlog, List.map_append, List.pairwise_append]
      refine ⟨h1, ?_, ?_⟩
      · rw [List.pairwise_map]
        refine List.pairwise_of_forall_mem_list ?_
        intro x hx y hy
        rw [(hprop x hx).1, (hprop y hy).1]
      · intro x hx y hy
        rcases List.mem_map.mp hx with ⟨e, he, rfl⟩
        rcases List.mem_map.mp hy with ⟨f, hf, rfl⟩
        rw [(hprop f hf).1]
        exact h2 e he
    have h2' : ∀ e ∈ ((stepBlock cfg st b).state).log,
        e.offset ≤ ((stepBlock cfg st b).state).captureFile.length := by
      rw [hlog, hfile]
      intro e hme
      rw [List.length_append]
      rcases List.mem_append.mp hme with h | h
      · exact Nat.le_trans (h2 e h) (Nat.le_add_right _ _)
      · rw [(hprop e h).1]
        exact Nat.le_add_right _ _
    cases hstep : stepBlock cfg st b with
    | cont st' =>
      rw [hstep] at h1' h2'
      simp only [run, hstep]
      exact ih st' h1' h2'
    | ret st' =>
      rw [hstep] at h1'
      simp only [run, hstep, RunResult.state]
      exact h1'
    | fatal st' k =>
      rw [hstep] at h1'
      simp only [run, hstep, RunResult.state]
      exact h1'

theorem run_no_encodeFatal (cfg : Config) (bs : List Block) (st : RunState)
    (henc : cfg.encoderNil = true) :
    isEncodeFatal (run cfg st bs) = false := by
  induction bs generalizing st with
  | nil => rfl
  | cons b rest ih =>
    cases hstep : stepBlock cfg st b with
    | cont st' =>
      simp only [run, hstep]
      exact ih st'
    | ret st' => simp only [run, hstep, isEncodeFatal]
    | fatal st' k =>
      simp only [run, hstep]
      have hk : k ≠ .encodeError := by
        intro hk
        subst hk
        have hpcf := pc_fatal_false cfg st.captureFile.length
          (cfg.cfgD.bufferLength * 2) b.parsed (Or.inl henc)
        unfold stepBlock stepBlockAux at hstep
        split at hstep
        · exact FatalKind.noConfusion (StepOut.fatal.inj hstep).2
        · split at hstep
          · next hcf => exact absurd hcf (by simp [hpcf])
          · split at hstep
            · split at hstep
              · split at hstep <;> exact StepOut.noConfusion hstep
              · split at hstep
                · exact FatalKind.noConfusion (StepOut.fatal.inj hstep).2
                · split at hstep <;> exact StepOut.noConfusion hstep
            · exact StepOut.noConfusion hstep
      cases k with
      | encodeError => exact absurd rfl hk
      | readError => rfl
      | captureError => rfl

theorem run_single_accept (cfg : Config) (pre : List Block) (b : Block)
    (rest : List Block) (st : RunState)
    (hs : cfg.single = true) (hw : cfg.logWriteFails = false)
    (hbr : b.readErr = false) (hba : blockAccepted cfg b.parsed = true)
    (hbw : b.writeErr = false)
    (hpre : ∀ p ∈ pre, p.readErr = false ∧ blockAccepted cfg p.parsed = false) :
    ∃ st', run cfg st (pre ++ b :: rest) = .done st' ∧
      st'.reads = st.reads + pre.length + 1 ∧
      st'.log = st.log ++ ((firstAccepted cfg b.parsed).map
        fun scm => (⟨st.captureFile.length, cfg.cfgD.bufferLength * 2, scm⟩ :
          LogMessage)).toList ∧
      st'.captureFile = st.captureFile ++
        (if cfg.sampleDevNull then [] else b.iq) ∧
      st'.captureWrites = st.captureWrites +
        (if cfg.sampleDevNull then 0 else 1) := by
  induction pre generalizing st with
  | nil =>
    have hstep := stepBlock_accept_single cfg st b hs hw hbr hba hbw
    refine ⟨{ st with
        reads := st.reads + 1,
        log := st.log ++ ((firstAccepted cfg b.parsed).map
          fun scm => (⟨st.captureFile.length, cfg.cfgD.bufferLength * 2, scm⟩ :
            LogMessage)).toList,
        captureFile := st.captureFile ++
          (if cfg.sampleDevNull then [] else b.iq),
        captureWrites := st.captureWrites +
          (if cfg.sampleDevNull then 0 else 1) }, ?_, by simp, rfl, rfl, rfl⟩
    rw [List.nil_append]
    simp only [run, hstep]
  | cons p ps ih =>
    have hp := hpre p (List.mem_cons_self p ps)
    have hstep := stepBlock_quiet cfg st p hp.1 hp.2
    obtain ⟨st', hrun, hreads, hlog, hfile, hwrites⟩ :=
      ih { st with reads := st.reads + 1 }
        (fun q hq => hpre q (List.mem_cons_of_mem p hq))
    refine ⟨st', ?_, ?_, hlog, hfile, hwrites⟩
    · rw [List.cons_append]
      simp only [run, hstep]
      exact hrun
    · rw [hreads]
      simp only [List.length_cons]
      omega

theorem blockAccepted_all_none (cfg : Config) (ps : List (Option Message))
    (hp : ∀ c ∈ ps, c = none) : blockAccepted cfg ps = false := by
  induction ps with
  | nil => rfl
  | cons c rest ih =>
    cases c with
    | none =>
      rw [blockAccepted]
      exact ih fun q hq => hp q (List.mem_cons_of_mem _ hq)
    | some scm =>
      exact absurd (hp (some scm) (List.mem_cons_self _ _)) (by simp)

/-! ### The claims -/

/-- Claim C1: the filter accepts a parsed message iff the meter-ID
inclusion set is empty or contains the message's meter ID, and the
meter-type inclusion set is empty or contains the message's meter type;
an empty set disables filtering on that dimension instead of rejecting
everything. -/
theorem C1_filter_accept_iff (cfg : Config) (scm : Message) :
    filterPass cfg scm = true ↔
      (cfg.meterID = [] ∨ scm.meterID ∈ cfg.meterID) ∧
      (cfg.meterType = [] ∨ scm.meterType ∈ cfg.meterType) :=
  ⟨filterPass_elim cfg scm, fun h => filterPass_true_of cfg scm h.1 h.2⟩

/-- Claim C2: with raw-sample capture enabled, a block whose processing
completed (no `log.Fatal` fired during its iteration) causes exactly one
capture-file write — appending the block's raw bytes — when at least one
of its messages was accepted, and zero writes when none was. -/
theorem C2_capture_once_per_block (cfg : Config) (st : RunState) (b : Block)
    (hcap : cfg.sampleDevNull = false)
    (hnf : (stepBlock cfg st b).isFatal = false) :
    ((stepBlock cfg st b).state).captureWrites =
      st.captureWrites + (if blockAccepted cfg b.parsed then 1 else 0) ∧
    ((stepBlock cfg st b).state).captureFile =
      st.captureFile ++ (if blockAccepted cfg b.parsed then b.iq else []) := by
  by_cases hr : b.readErr = true
  · rw [stepBlock_readErr cfg st b hr] at hnf
    simp [StepOut.isFatal] at hnf
  · simp only [Bool.not_eq_true] at hr
    by_cases hacc : blockAccepted cfg b.parsed = true
    · have hcof : (processCandidates cfg st.captureFile.length
          (cfg.cfgD.bufferLength * 2) b.parsed).fatal = false := by
        by_contra hcf
        simp only [Bool.not_eq_false] at hcf
        rw [stepBlock_cofatal cfg st b hr hcf] at hnf
        simp [StepOut.isFatal] at hnf
      by_cases hbw : b.writeErr = true
      · rw [stepBlock_accept_writeErr cfg st b hcap hr hacc hcof hbw] at hnf
        simp [StepOut.isFatal] at hnf
      · simp only [Bool.not_eq_true] at hbw
        have hpair := stepBlock_accept_nofatal cfg st b hcap hr hacc hcof hbw
        rw [hacc]
        simpa using hpair
    · simp only [Bool.not_eq_true] at hacc
      rw [stepBlock_quiet cfg st b hr hacc, hacc]
      simp [StepOut.state]

/-- Witness for C2 at a block with two accepted candidates. -/
theorem C2_witness :
    cfgPlain.sampleDevNull = false ∧
    (stepBlock cfgPlain initState bTwo).isFatal = false ∧
    (((stepBlock cfgPlain initState bTwo).state).captureWrites =
      initState.captureWrites +
        (if blockAccepted cfgPlain bTwo.parsed then 1 else 0) ∧
    ((stepBlock cfgPlain initState bTwo).state).captureFile =
      initState.captureFile ++
        (if blockAccepted cfgPlain bTwo.parsed then bTwo.iq else [])) :=
  ⟨rfl, by decide, C2_capture_once_per_block cfgPlain initState bTwo rfl
    (by decide)⟩

/-- Claim C3: in single-shot mode (with a working log sink), when block N
is the first block of the stream yielding at least one accepted message
and its read and capture write succeed, the loop performs exactly N reads,
emits the matching output write(s), performs the capture-file write for
block N when capture is enabled, and returns, so the process exits with
status zero without beginning a new read. -/
theorem C3_single_shot_termination (cfg : Config) (pre : List Block)
    (b : Block) (rest : List Block)
    (hs : cfg.single = true) (hw : cfg.logWriteFails = false)
    (hpre : ∀ p ∈ pre, p.readErr = false ∧ blockAccepted cfg p.parsed = false)
    (hbr : b.readErr = false) (hba : blockAccepted cfg b.parsed = true)
    (hbw : b.writeErr = false) :
    ∃ st', run cfg initState (pre ++ b :: rest) = .done st' ∧
      st'.reads = pre.length + 1 ∧
      st'.log ≠ [] ∧
      (cfg.sampleDevNull = false →
        st'.captureWrites = 1 ∧ st'.captureFile = b.iq) ∧
      exitStatus (run cfg initState (pre ++ b :: rest)) = some 0 := by
  obtain ⟨st', hrun, hreads, hlog, hfile, hwrites⟩ :=
    run_single_accept cfg pre b rest initState hs hw hbr hba hbw hpre
  refine ⟨st', hrun, ?_, ?_, ?_, ?_⟩
  · rw [hreads]
    simp [initState]
  · rw [hlog]
    have hsome := firstAccepted_isSome_eq cfg b.parsed
    rw [hba] at hsome
    cases hfa : firstAccepted cfg b.parsed with
    | none => rw [hfa] at hsome; simp at hsome
    | some m => simp [initState]
  · intro hdev
    constructor
    · rw [hwrites, hdev]
      simp [initState]
    · rw [hfile, hdev]
      simp [initState]
  · rw [hrun]
    rfl

/-- Witness for C3: block 3 is the first accepted one, so exactly 3 reads. -/
theorem C3_witness :
    ∃ st', run cfgSingle initState ([bQuiet, bQuiet] ++ bOne :: []) =
        .done st' ∧
      st'.reads = [bQuiet, bQuiet].length + 1 ∧
      st'.log ≠ [] ∧
      (cfgSingle.sampleDevNull = false →
        st'.captureWrites = 1 ∧ st'.captureFile = bOne.iq) ∧
      exitStatus (run cfgSingle initState ([bQuiet, bQuiet] ++ bOne :: [])) =
        some 0 :=
  C3_single_shot_termination cfgSingle [bQuiet, bQuiet] bOne [] rfl rfl
    (by decide) rfl (by decide) rfl

/-- Claim C4 fails on the code: in single-shot mode the candidate loop
`break`s right after the first accepted message (recv.go:179-181), so
later candidates of the same block are not processed. Concretely, `bTwo`
has two accepted candidates, yet the single-shot run emits exactly one log
entry instead of two. -/
theorem C4_counterexample :
    countAccepted cfgSingle bTwo.parsed = 2 ∧
    ((run cfgSingle initState [bTwo]).state).log.length = 1 := by decide

/-- Claim C4 (amended): in single-shot mode (with a working log sink) the
candidates of the block are processed normally only up to and including
the first accepted one; the candidate loop emits exactly the entry for the
first accepted candidate (and nothing when no candidate is accepted),
without any fatal error, and the remaining candidates are skipped. -/
theorem C4_amended_single_first_only (cfg : Config) (pos len : Nat)
    (ps : List (Option Message))
    (hs : cfg.single = true) (hw : cfg.logWriteFails = false) :
    processCandidates cfg pos len ps =
      ⟨((firstAccepted cfg ps).map
          fun scm => (⟨pos, len, scm⟩ : LogMessage)).toList,
        (firstAccepted cfg ps).isSome, false⟩ :=
  pc_single cfg pos len ps hs hw

/-- Witness for the amended C4 on the two-accepted-candidates block. -/
theorem C4_amended_witness :
    processCandidates cfgSingle 0 8 bTwo.parsed =
      ⟨((firstAccepted cfgSingle bTwo.parsed).map
          fun scm => (⟨0, 8, scm⟩ : LogMessage)).toList,
        (firstAccepted cfgSingle bTwo.parsed).isSome, false⟩ :=
  C4_amended_single_first_only cfgSingle 0 8 bTwo.parsed rfl rfl

/-- Claim C5 fails on the code: a transport read error is indeed fatal and
unretried (`log.Fatal`, recv.go:133), but `log.Fatal` is `os.Exit(1)`,
which terminates the process without running `main`'s deferred
`logFile.Close()` / `sampleFile.Close()`: the claimed scoped resource
release is not attempted on this path, as this concrete failing stream
shows. -/
theorem C5_counterexample :
    exitStatus (run cfgPlain initState [bReadErr]) = some 1 ∧
    defersRun (run cfgPlain initState [bReadErr]) = false := by decide

/-- Claim C5 (amended): a transport read error is fatal: the loop logs the
error and the process terminates with status 1 without retrying and
without performing any further read; the deferred flushing/closing of the
log sink and capture file does NOT run, because `log.Fatal` exits the
process without running deferred functions. -/
theorem C5_amended_read_error_fatal (cfg : Config) (st : RunState) (b : Block)
    (rest : List Block) (hr : b.readErr = true) :
    run cfg st (b :: rest) =
      .fatal { st with reads := st.reads + 1 } .readError ∧
    exitStatus (run cfg st (b :: rest)) = some 1 ∧
    defersRun (run cfg st (b :: rest)) = false := by
  have hstep := stepBlock_readErr cfg st b hr
  refine ⟨?_, ?_, ?_⟩ <;> simp only [run, hstep, exitStatus, defersRun]

/-- Witness for the amended C5 on a concrete read-failing stream. -/
theorem C5_amended_witness :
    run cfgPlain initState [bReadErr] =
      .fatal { initState with reads := initState.reads + 1 } .readError ∧
    exitStatus (run cfgPlain initState [bReadErr]) = some 1 ∧
    defersRun (run cfgPlain initState [bReadErr]) = false :=
  C5_amended_read_error_fatal cfgPlain initState bReadErr [] rfl

/-- Claim C6 fails on the code: in the plain-text output format
(`encoder == nil`) the return value of `fmt.Fprintln(logFile, msg)` is
discarded (recv.go:161/163), so a failing log sink is NOT fatal there:
with an accepted message and a failing sink the loop below continues
(no process exit) and the entry is silently lost. -/
theorem C6_counterexample :
    blockAccepted cfgPlainBadSink bOne.parsed = true ∧
    exitStatus (run cfgPlainBadSink initState [bOne]) = none ∧
    ((run cfgPlainBadSink initState [bOne]).state).log = [] := by decide

/-- Claim C6 (amended): with a structured encoder, a failure to serialize
an accepted message is fatal — status 1, `log.Fatal`, deferred closes not
run — while in the plain-text format write errors on the log sink are
ignored and the run can never die of an encoding error. -/
theorem C6_amended_output_failure (cfg cfgP : Config) (st stP : RunState)
    (b : Block) (rest bsP : List Block)
    (henc : cfg.encoderNil = false) (hwf : cfg.logWriteFails = true)
    (hr : b.readErr = false) (hacc : blockAccepted cfg b.parsed = true)
    (hencP : cfgP.encoderNil = true) :
    exitStatus (run cfg st (b :: rest)) = some 1 ∧
    isEncodeFatal (run cfg st (b :: rest)) = true ∧
    defersRun (run cfg st (b :: rest)) = false ∧
    isEncodeFatal (run cfgP stP bsP) = false := by
  have hcf := pc_fatal_true cfg st.captureFile.length
    (cfg.cfgD.bufferLength * 2) b.parsed henc hwf hacc
  have hstep := stepBlock_cofatal cfg st b hr hcf
  refine ⟨?_, ?_, ?_, run_no_encodeFatal cfgP bsP stP hencP⟩ <;>
    simp only [run, hstep, exitStatus, isEncodeFatal, defersRun]

/-- Witness for the amended C6: encoder mode dies with status 1, plain-text
mode never encode-fatals, on the same accepted block with a bad sink. -/
theorem C6_amended_witness :
    exitStatus (run cfgEncBadSink initState [bOne]) = some 1 ∧
    isEncodeFatal (run cfgEncBadSink initState [bOne]) = true ∧
    defersRun (run cfgEncBadSink initState [bOne]) = false ∧
    isEncodeFatal (run cfgPlainBadSink initState [bOne]) = false :=
  C6_amended_output_failure cfgEncBadSink cfgPlainBadSink initState initState
    bOne [] [bOne] rfl rfl rfl (by decide) rfl

/-- Claim C7: a candidate whose parse fails is silently skipped; a block
all of whose candidates fail parsing produces zero log entries and zero
capture-file writes, and its iteration continues to the next read having
changed nothing but the read count. -/
theorem C7_parse_failures_silent (cfg : Config) (st : RunState) (b : Block)
    (hr : b.readErr = false) (hp : ∀ c ∈ b.parsed, c = none) :
    stepBlock cfg st b = .cont { st with reads := st.reads + 1 } :=
  stepBlock_quiet cfg st b hr (blockAccepted_all_none cfg b.parsed hp)

/-- Witness for C7 on a block whose candidates all fail parsing. -/
theorem C7_witness :
    stepBlock cfgPlain initState bNoise =
      .cont { initState with reads := initState.reads + 1 } :=
  C7_parse_failures_silent cfgPlain initState bNoise rfl (by decide)

/-- Claim C8: with raw-sample capture enabled, every log entry an iteration
emits records as `Offset` the capture file's write position immediately
before that iteration appends the block's raw bytes (the append happens
after the candidate loop), and over any whole run from startup the
recorded offsets are non-decreasing. -/
theorem C8_offset_position_monotone (cfg : Config)
    (hcap : cfg.sampleDevNull = false) :
    (∀ st b, ∀ e ∈ ((stepBlock cfg st b).state).log.drop st.log.length,
      e.offset = st.captureFile.length) ∧
    ∀ bs,
      (((run cfg initState bs).state).log.map LogMessage.offset).Pairwise
        (· ≤ ·) := by
  constructor
  · intro st b e hme
    obtain ⟨tail, app, hlog, hfile, hwr, hprop⟩ := stepBlock_growth cfg st b
    rw [hlog, List.drop_left] at hme
    exact (hprop e hme).1
  · intro bs
    exact run_offsets cfg bs initState (by simp [initState])
      (by simp [initState])

/-- Witness for C8 at the capture-enabled plain-text configuration. -/
theorem C8_witness :
    (∀ st b, ∀ e ∈ ((stepBlock cfgPlain st b).state).log.drop st.log.length,
      e.offset = st.captureFile.length) ∧
    ∀ bs,
      (((run cfgPlain initState bs).state).log.map LogMessage.offset).Pairwise
        (· ≤ ·) :=
  C8_offset_position_monotone cfgPlain rfl

/-- Claim C9: under the spec-modelled decode configuration (the decode
package is absent from the sources; per the spec the decoder's raw-IQ
byte count `BufferLength << 1` equals the Sample Block's byte length
`BlockSize2`), every log entry of a run records as `Length` the byte
length of the Sample Block read, `BlockSize2`. -/
theorem C9_entry_length_blockSize2 (cfg : Config)
    (hspec : specBlockBytes cfg.cfgD) (bs : List Block) :
    ∀ e ∈ ((run cfg initState bs).state).log,
      e.length = cfg.cfgD.blockSize2 := by
  intro e hme
  have hlen := run_log_len cfg bs initState (by simp [initState]) e hme
  rw [hlen]
  exact hspec

/-- Witness for C9 on a concrete two-block run. -/
theorem C9_witness :
    ∃ e, e ∈ ((run cfgPlain initState [bTwo, bOne]).state).log ∧
      e.length = cfgPlain.cfgD.blockSize2 := by
  have hmem : (⟨0, 8, msgA⟩ : LogMessage) ∈
      ((run cfgPlain initState [bTwo, bOne]).state).log := by decide
  exact ⟨_, hmem, C9_entry_length_blockSize2 cfgPlain rfl [bTwo, bOne] _ hmem⟩

/-- Claim C10: in non-single-shot mode, all log entries emitted for one
block record the identical offset: the capture file's write position
advances only once per block, after all of the block's candidates have
been processed. -/
theorem C10_same_block_same_offset (cfg : Config) (st : RunState) (b : Block)
    (hs : cfg.single = false) :
    ∀ e1 ∈ ((stepBlock cfg st b).state).log.drop st.log.length,
    ∀ e2 ∈ ((stepBlock cfg st b).state).log.drop st.log.length,
      e1.offset = e2.offset := by
  intro e1 h1 e2 h2
  obtain ⟨tail, app, hlog, hfile, hwr, hprop⟩ := stepBlock_growth cfg st b
  rw [hlog, List.drop_left] at h1 h2
  rw [(hprop e1 h1).1, (hprop e2 h2).1]

/-- Witness for C10 on a block with two accepted candidates: its two
distinct entries carry the same offset. -/
theorem C10_witness :
    ∃ e1, e1 ∈ ((stepBlock cfgPlain initState bTwo).state).log.drop
        initState.log.length ∧
      ∃ e2, e2 ∈ ((stepBlock cfgPlain initState bTwo).state).log.drop
          initState.log.length ∧
        e1 ≠ e2 ∧ e1.offset = e2.offset := by
  have h1 : (⟨0, 8, msgA⟩ : LogMessage) ∈
      ((stepBlock cfgPlain initState bTwo).state).log.drop
        initState.log.length := by decide
  have h2 : (⟨0, 8, msgB⟩ : LogMessage) ∈
      ((stepBlock cfgPlain initState bTwo).state).log.drop
        initState.log.length := by decide
  exact ⟨_, h1, _, h2, by decide,
    C10_same_block_same_offset cfgPlain initState bTwo rfl _ h1 _ h2⟩
